import Mathlib

/-!
Shallow embedding of the IOManager core (src/src/lib/iomgr.cpp) and proofs
about its thread-regex dispatch, message delivery, multicast protocol,
lifecycle state machine, global timers, thread-index capacity guard and the
aligned-buffer allocator duality.

Conventions of the embedding:
* machine integers are `Nat`/`Int`; `int64_t` metrics counters are `Int` and
  the sentinel `INTMAX_MAX` is the explicit literal `2^63 - 1`;
* pointers that may be null are `Option`;
* the effect of a call is captured as a pure result record that logs, for the
  original message, the successful deliveries and the number of times
  `iomgr_msg::free` ran on it, plus the clone deliveries.
-/

namespace Iomgr

/-- Embeds `enum class thread_regex` from the header (used throughout iomgr.cpp). -/
inductive thread_regex
  | all_io
  | least_busy_io
  | all_worker
  | least_busy_worker
  | random_worker
  | all_user
  | least_busy_user
deriving DecidableEq, Repr

/-- Embeds `io_thread::thread_impl`, a `std::variant< spdk_thread*, reactor_idx_t >`.
The opaque `spdk_thread*` handle and the reactor index are both numbered. -/
inductive thread_impl_t
  | spdk (handle : Nat)
  | ridx (idx : Nat)
deriving DecidableEq, Repr

/-- One `io_thread` record: local address within its reactor, global dense
index, its metrics counter `m_metrics->outstanding_ops` (an `int64_t`), the
backend identity variant, and the `is_worker()` flag of its owning reactor
(`thr->reactor->is_worker()`, flattened here to break the back-pointer
cycle). -/
structure io_thread where
  thread_addr : Nat
  thread_idx : Nat
  outstanding_ops : Int
  thread_impl : thread_impl_t
  reactor_is_worker : Bool
deriving DecidableEq, Repr

/-- An `IOReactor` as seen by the manager: its role flags, the list of
io_threads it owns (`io_threads()`), the thread `select_thread()` would
return, and whether `deliver_msg(addr, msg)` accepts a message for a given
address (the enqueue success is reactor-defined, so it is a parameter). -/
structure IOReactor where
  is_worker : Bool
  is_io_reactor : Bool
  io_threads : List io_thread
  select_thread : io_thread
  deliver_ok : Nat → Bool

/-- Embeds `match_regex(r, thr)` of iomgr.cpp (lines 244-252), verbatim: `all_io`
and `least_busy_io` match everything; worker threads match the three worker
regexes; user threads match the two user regexes. -/
def match_regex (r : thread_regex) (thr : io_thread) : Bool :=
  if (r = .all_io) ∨ (r = .least_busy_io) then true
  else if thr.reactor_is_worker then
    (r = .all_worker) ∨ (r = .least_busy_worker) ∨ (r = .random_worker)
  else
    (r = .all_user) ∨ (r = .least_busy_user)

/-- Result of `IOManager::send_msg`: the boolean return value and whether the
call itself freed the message (`if (!ret) iomgr_msg::free(msg)`). -/
structure SendResult where
  ret : Bool
  freed : Bool
deriving DecidableEq, Repr

/-- Embeds `IOManager::send_msg(to_thread, msg)` (lines 318-336). `lookup` embeds
`specific_reactor`: `lookup i = none` covers both a missing thread-local
entry and a null reactor pointer. On the `spdk_thread*` variant the message
is handed to `IOReactorSPDK::deliver_msg_direct` and the call returns true;
on the reactor-index variant it succeeds iff the reactor exists, is an io
reactor, and `deliver_msg` accepts; a false return frees the message. -/
def send_msg (lookup : Nat → Option IOReactor) (to_thread : io_thread) : SendResult :=
  match to_thread.thread_impl with
  | .spdk _ => { ret := true, freed := false }
  | .ridx i =>
    let ret := match lookup i with
      | some reactor => reactor.is_io_reactor && reactor.deliver_ok to_thread.thread_addr
      | none => false
    { ret := ret, freed := !ret }

/-- Value of `INTMAX_MAX`, the initial value of `min_cnt` in `multicast_msg`. -/
def INTMAX_MAX : Int := 9223372036854775807

/-- The mutable locals of `IOManager::multicast_msg` (lines 260-300) together
with an event log for the original message: `sent_to`, `cloned`, the running
least-busy triple (`min_cnt`, `min_thread`, `min_reactor`), the successful
deliveries of the original (`orig_sends`), the clone delivery attempts
(`clone_sends`, whose `deliver_msg` return the code discards), and how many
times `iomgr_msg::free` ran on the original (`orig_frees`). -/
structure McastState where
  sent_to : Nat
  cloned : Bool
  min_cnt : Int
  min_addr : Nat
  min_reactor : Option IOReactor
  orig_sends : List io_thread
  clone_sends : List io_thread
  orig_frees : Nat

/-- The manager state `multicast_msg` reads: the worker reactor slots
(`m_worker_reactors[i].second`, null until `reactor_started`), the
thread-local registry traversal order of `all_reactors`
(`m_reactors.access_all_threads`), and the `specific_reactor` lookup used by
`send_msg`. -/
structure MulticastEnv where
  worker_reactors : List (Option IOReactor)
  all_reactors : List (Option IOReactor)
  lookup : Nat → Option IOReactor

/-- The body of the inner `for (auto& thr : reactor->io_threads())` loop of
`multicast_msg`: matching threads either update the least-busy triple (for
the two `least_busy_worker`/`least_busy_user` regexes, with a strict `<`
comparison against `min_cnt`) or receive a clone (return value of
`deliver_msg` discarded, `cloned` set, `sent_to` incremented). -/
def thread_step (r : thread_regex) (rc : IOReactor) (st : McastState)
    (thr : io_thread) : McastState :=
  if match_regex r thr then
    if (r = .least_busy_worker) ∨ (r = .least_busy_user) then
      if thr.outstanding_ops < st.min_cnt then
        { st with min_addr := thr.thread_addr, min_cnt := thr.outstanding_ops,
                  min_reactor := some rc }
      else st
    else
      { st with cloned := true, sent_to := st.sent_to + 1,
                clone_sends := st.clone_sends ++ [thr] }
  else st

/-- The `if (reactor && reactor->is_io_reactor())` guard plus the inner
thread loop of the `_pick_reactors` callback. -/
def reactor_scan (r : thread_regex) (st : McastState)
    (orea : Option IOReactor) : McastState :=
  match orea with
  | some rc => if rc.is_io_reactor then rc.io_threads.foldl (thread_step r rc) st else st
  | none => st

/-- Modelled from the spec: `IOReactor::addr_to_thread` is declared in the
header (not under src/); it resolves a reactor-local `thread_addr` back to
the reactor's io_thread record, here by lookup in `io_threads()`. -/
def addr_to_thread (rc : IOReactor) (addr : Nat) : Option io_thread :=
  rc.io_threads.find? (fun t => t.thread_addr == addr)

/-- The `if (is_last_thread && min_reactor)` tail of the `_pick_reactors`
callback: `send_msg(min_reactor->addr_to_thread(min_thread), msg)` and
`++sent_to` on success. (`addr_to_thread` cannot miss on states the scan
produced; a miss is mapped to doing nothing.) -/
def final_send (lookup : Nat → Option IOReactor) (st : McastState) : McastState :=
  match st.min_reactor with
  | some rc =>
    match addr_to_thread rc st.min_addr with
    | some t =>
      let res := send_msg lookup t
      { st with
        sent_to := if res.ret then st.sent_to + 1 else st.sent_to,
        orig_sends := if res.ret then st.orig_sends ++ [t] else st.orig_sends,
        orig_frees := st.orig_frees + (if res.freed then 1 else 0) }
    | none => st
  | none => st

/-- One invocation of the lambda passed to `_pick_reactors`, with its
`is_last_thread` flag. -/
def reactor_cb (lookup : Nat → Option IOReactor) (r : thread_regex)
    (st : McastState) (p : Option IOReactor × Bool) : McastState :=
  let st1 := reactor_scan r st p.1
  if p.2 then final_send lookup st1 else st1

/-- Pairs every element of a list with the `i == size - 1` flag that
`_pick_reactors` (and `access_all_threads`) hand to the callback. -/
def withLast : List α → List (α × Bool)
  | [] => []
  | [a] => [(a, true)]
  | a :: b :: rest => (a, false) :: withLast (b :: rest)

/-- Embeds `IOManager::_pick_reactors` (lines 302-310): the worker-slot fast path
for `all_worker`/`least_busy_worker`, every registered reactor otherwise. -/
def pick_list (env : MulticastEnv) (r : thread_regex) : List (Option IOReactor) :=
  if (r = .all_worker) ∨ (r = .least_busy_worker) then env.worker_reactors
  else env.all_reactors

/-- Initial locals of `multicast_msg`: `sent_to = 0`, `cloned = false`,
`min_cnt = INTMAX_MAX`, `min_thread = -1U`, `min_reactor = nullptr`. -/
def init_mcast : McastState :=
  { sent_to := 0, cloned := false, min_cnt := INTMAX_MAX, min_addr := 4294967295,
    min_reactor := none, orig_sends := [], clone_sends := [], orig_frees := 0 }

/-- Embeds `IOManager::multicast_msg(r, msg)` (lines 260-300). `rand_k` is the value
`std::experimental::randint(0, size - 1)` produced on the `random_worker`
path (randomness is external, so the drawn slot is a parameter). A null or
out-of-range worker slot on that path is a null-pointer dereference in the
C++ (undefined); the model returns the initial state there and no theorem
relies on that case. The trailing `if (cloned || !sent_to)` free of the
original is the last step. -/
def multicast_msg (env : MulticastEnv) (r : thread_regex) (rand_k : Nat) : McastState :=
  let st :=
    if r = .random_worker then
      match env.worker_reactors[rand_k]? with
      | some (some rc) =>
        let delivered := rc.deliver_ok rc.select_thread.thread_idx
        { init_mcast with
          sent_to := if delivered then 1 else 0,
          orig_sends := if delivered then [rc.select_thread] else [] }
      | _ => init_mcast
    else
      (withLast (pick_list env r)).foldl (reactor_cb env.lookup r) init_mcast
  if st.cloned || st.sent_to == 0 then { st with orig_frees := st.orig_frees + 1 } else st

/-- The (reactor, io_thread) pairs one slot contributes to the scan: threads
of a non-null io reactor that pass `match_regex`, paired with the reactor. -/
def reactor_pairs (r : thread_regex) : Option IOReactor → List (IOReactor × io_thread)
  | some rc =>
    if rc.is_io_reactor then
      (rc.io_threads.filter (fun t => match_regex r t)).map (fun t => (rc, t))
    else []
  | none => []

/-- The (reactor, io_thread) pairs the least-busy scan ranges over, in scan
order. -/
def matching_threads (env : MulticastEnv) (r : thread_regex) :
    List (IOReactor × io_thread) :=
  (pick_list env r).flatMap (reactor_pairs r)

/-- Specification of the running least-busy minimum: folding the strict
`<`-update over a pair list starting from bound `m` yields the first pair
attaining the least `outstanding_ops` (or none when nothing beats `m`). -/
def scanMinN : List (IOReactor × io_thread) → Int → Option (IOReactor × io_thread)
  | [], _ => none
  | p :: rest, m =>
    if p.2.outstanding_ops < m then some ((scanMinN rest p.2.outstanding_ops).getD p)
    else scanMinN rest m

/-- The least-busy branch of `thread_step` as an update on pairs. -/
def min_upd (st : McastState) (p : IOReactor × io_thread) : McastState :=
  if p.2.outstanding_ops < st.min_cnt then
    { st with min_addr := p.2.thread_addr, min_cnt := p.2.outstanding_ops,
              min_reactor := some p.1 }
  else st

/-- Embeds `enum class iomgr_state`, the lifecycle sequence of the manager. -/
inductive iomgr_state
  | uninitialized
  | interface_init
  | reactor_init
  | sys_init
  | running
  | stopping
  | stopped
deriving DecidableEq, Repr

/-- The manager fields `start`/`stop` touch, summarized: lifecycle state, the
spdk flag, the two phase counters, the worker reactor vector (its length),
the interface and drive-interface list lengths, the message-module count,
whether each global timer object is alive, and a count of
`RELINQUISH_IO_THREAD` multicasts issued (so that sending one is visible in
the state). -/
structure ManagerState where
  state : iomgr_state
  is_spdk : Bool
  yet_to_start_nreactors : Nat
  yet_to_stop_nreactors : Nat
  worker_reactor_count : Nat
  iface_count : Nat
  drive_iface_count : Nat
  msg_modules : Nat
  global_user_timer : Bool
  global_worker_timer : Bool
  relinquish_multicasts : Nat
deriving DecidableEq, Repr

/-- Embeds `IOManager::start(num_threads, is_spdk, notifier, iface_adder)` (lines
46-118). The guard is verbatim from lines 48-51: in `running` state it only
warns and returns. Otherwise the multi-phase sequence (publish counters,
register the internal msg module, interface_init with the generic interface
plus either the caller's interfaces — `custom_ifaces = some (i, d)` adds `i`
interfaces of which `d` are drive interfaces — or the default drive
interface, reactor_init spawning `num_threads` reactor threads, the waits,
timer creation, and the final transition) is collapsed to its completed
post-state: the phase waits and reactor threads are real concurrency, so the
model records the state after `start` returns. -/
def start (s : ManagerState) (num_threads : Nat) (is_spdk : Bool)
    (custom_ifaces : Option (Nat × Nat)) : ManagerState :=
  if s.state = .running then s
  else
    { state := .running,
      is_spdk := is_spdk,
      yet_to_start_nreactors := 0,
      yet_to_stop_nreactors := s.yet_to_stop_nreactors + num_threads,
      worker_reactor_count := num_threads,
      iface_count := s.iface_count + 1 +
        (match custom_ifaces with | none => 1 | some c => c.1),
      drive_iface_count := s.drive_iface_count +
        (match custom_ifaces with | none => 1 | some c => c.2),
      msg_modules := s.msg_modules + 1,
      global_user_timer := true,
      global_worker_timer := true,
      relinquish_multicasts := s.relinquish_multicasts }

/-- Embeds `IOManager::stop()` (lines 146-189). The body runs unconditionally — it
has no state guard: `set_state(stopping)`, pre-increment of
`m_yet_to_stop_nreactors`, destruction of both global timers, one
`RELINQUISH_IO_THREAD` multicast, the decrement/wait until every reactor has
relinquished (counter 0, state `stopped`), thread joins, and clearing of the
worker vector, the start counter and both interface lists. As with `start`,
the waits are collapsed to the post-state at return. -/
def stop (s : ManagerState) : ManagerState :=
  { s with
    state := .stopped,
    yet_to_stop_nreactors := 0,
    global_user_timer := false,
    global_worker_timer := false,
    relinquish_multicasts := s.relinquish_multicasts + 1,
    worker_reactor_count := 0,
    yet_to_start_nreactors := 0,
    iface_count := 0,
    drive_iface_count := 0 }

/-- The two global timer objects of the manager. -/
inductive global_timer_scope
  | worker_timer
  | user_timer
deriving DecidableEq, Repr

/-- Value of `null_timer_handle`, the handle returned on an invalid regex. -/
def null_timer_handle : Option (global_timer_scope × Nat × Bool) := none

/-- Embeds `IOManager::schedule_global_timer(nanos_after, recurring, cookie, r, fn)`
(lines 349-362): `all_worker` routes to `m_global_worker_timer`, `all_user`
to `m_global_user_timer`, anything else asserts in a log message and returns
`null_timer_handle`. The result records which timer received the `schedule`
call and with which arguments (the opaque cookie and callback carry no
data). -/
def schedule_global_timer (nanos_after : Nat) (recurring : Bool)
    (r : thread_regex) : Option (global_timer_scope × Nat × Bool) :=
  if r = .all_worker then some (.worker_timer, nanos_after, recurring)
  else if r = .all_user then some (.user_timer, nanos_after, recurring)
  else null_timer_handle

/-- The two aligned-buffer allocators `iobuf_*` dispatch between. -/
inductive alloc_backend
  | spdk_dma
  | libc
deriving DecidableEq, Repr

/-- Modelled from the spec: `sisl::round_up` lives in the external sisl
library (not under src/); per the spec, `iobuf_alloc` "rounds size up to
`align`", i.e. to the least multiple of the alignment not below the size. -/
def round_up (size multiple : Nat) : Nat := ((size + multiple - 1) / multiple) * multiple

/-- Embeds `IOManager::iobuf_alloc(align, size)` (lines 435-439): round the size up
to the alignment, then allocate via `spdk_malloc(..., SPDK_MALLOC_DMA)` when
`m_is_spdk`, else via `std::aligned_alloc`. The result records the chosen
backend and the (align, size) arguments passed to it. -/
def iobuf_alloc (is_spdk : Bool) (align size : Nat) : alloc_backend × Nat × Nat :=
  let sz := round_up size align
  (if is_spdk then .spdk_dma else .libc, align, sz)

/-- Embeds `IOManager::iobuf_free(buf)` (line 441): `spdk_free` vs `std::free`. -/
def iobuf_free (is_spdk : Bool) : alloc_backend :=
  if is_spdk then .spdk_dma else .libc

/-- Embeds `IOManager::iobuf_realloc(buf, align, new_size)` (lines 443-445):
`spdk_realloc` vs `sisl_aligned_realloc`, no rounding. -/
def iobuf_realloc (is_spdk : Bool) (align new_size : Nat) : alloc_backend × Nat × Nat :=
  if is_spdk then (.spdk_dma, align, new_size) else (.libc, align, new_size)

/-- Bounded linear probe for the least free index (fuel-based recursion). -/
def leastFreeAux : Nat → Nat → List Nat → Nat
  | 0, n, _ => n
  | fuel + 1, n, taken => if n ∈ taken then leastFreeAux fuel (n + 1) taken else n

/-- Modelled from the spec: `sisl::IDReserver m_thread_idx_reserver` is
external library code (not under src/); the spec says it "hands out dense
small integer slots (0..MAX) and returns them on release". `reserve` yields
the least index not currently taken. -/
def reserve (taken : List Nat) : Nat := leastFreeAux (taken.length + 1) 0 taken

/-- Embeds `IOManager::make_io_thread(reactor)` (lines 390-397): reserve the next
`thread_idx`; if it reaches `max_io_threads`, throw a `std::system_error`
("Running IO Threads exceeds limit"), else return the new io_thread (its
fresh `thread_idx` stands for it here). -/
def make_io_thread (max_io_threads : Nat) (taken : List Nat) : Except String Nat :=
  let idx := reserve taken
  if idx ≥ max_io_threads then Except.error "Running IO Threads exceeds limit"
  else Except.ok idx

/-- Concrete io_thread for the C1 failing input: lives at reactor index 3. -/
def cexT1 : io_thread :=
  { thread_addr := 0, thread_idx := 0, outstanding_ops := 5,
    thread_impl := .ridx 3, reactor_is_worker := true }

/-- Concrete worker io reactor whose message queue refuses deliveries
(`deliver_msg` returns false, as the reactor contract allows). -/
def cexR1 : IOReactor :=
  { is_worker := true, is_io_reactor := true, io_threads := [cexT1],
    select_thread := cexT1, deliver_ok := fun _ => false }

/-- C1 failing input: one worker slot holding `cexR1`; the registry resolves
reactor index 3 to `cexR1`, whose `deliver_msg` refuses, so the final
`send_msg` of the least-busy original fails. -/
def cexEnv1 : MulticastEnv :=
  { worker_reactors := [some cexR1], all_reactors := [],
    lookup := fun i => if i = 3 then some cexR1 else none }

/-- Concrete io_thread for the C6 counterexample. -/
def cexT2 : io_thread :=
  { thread_addr := 0, thread_idx := 0, outstanding_ops := 0,
    thread_impl := .ridx 0, reactor_is_worker := true }

/-- Worker io reactor whose `deliver_msg` refuses the message. -/
def cexR2 : IOReactor :=
  { is_worker := true, is_io_reactor := true, io_threads := [cexT2],
    select_thread := cexT2, deliver_ok := fun _ => false }

/-- C6 counterexample input: a worker slot exists, but its reactor's
`deliver_msg` refuses the original message. -/
def cexEnv2 : MulticastEnv :=
  { worker_reactors := [some cexR2], all_reactors := [],
    lookup := fun _ => some cexR2 }

/-- Healthy worker thread (address 0, 5 outstanding ops). -/
def okT1 : io_thread :=
  { thread_addr := 0, thread_idx := 0, outstanding_ops := 5,
    thread_impl := .ridx 0, reactor_is_worker := true }

/-- Healthy worker thread (address 1, 2 outstanding ops — the least busy). -/
def okT2 : io_thread :=
  { thread_addr := 1, thread_idx := 1, outstanding_ops := 2,
    thread_impl := .ridx 0, reactor_is_worker := true }

/-- Worker io reactor that accepts every delivery. -/
def okR : IOReactor :=
  { is_worker := true, is_io_reactor := true, io_threads := [okT1, okT2],
    select_thread := okT1, deliver_ok := fun _ => true }

/-- Healthy environment: one worker slot, registry slot 0 = `okR`. -/
def okEnv : MulticastEnv :=
  { worker_reactors := [some okR], all_reactors := [],
    lookup := fun _ => some okR }

/-- A manager state in the `running` phase (for the C4 witness). -/
def runningState : ManagerState :=
  { state := .running, is_spdk := false, yet_to_start_nreactors := 0,
    yet_to_stop_nreactors := 4, worker_reactor_count := 4, iface_count := 2,
    drive_iface_count := 1, msg_modules := 1, global_user_timer := true,
    global_worker_timer := true, relinquish_multicasts := 0 }

/-- A manager state that has never been started (for the C5 counterexample). -/
def uninitState : ManagerState :=
  { state := .uninitialized, is_spdk := false, yet_to_start_nreactors := 0,
    yet_to_stop_nreactors := 0, worker_reactor_count := 0, iface_count := 0,
    drive_iface_count := 0, msg_modules := 0, global_user_timer := false,
    global_worker_timer := false, relinquish_multicasts := 0 }

/-- C3: `match_regex(r, thr)` returns true iff r is all_io/least_busy_io, or
the thread's reactor is a worker and r is a worker regex, or the thread is a
user thread and r is a user regex. -/
theorem match_regex_characterization (r : thread_regex) (thr : io_thread) :
    match_regex r thr = true ↔
      ((r = .all_io ∨ r = .least_busy_io) ∨
       (thr.reactor_is_worker = true ∧
         (r = .all_worker ∨ r = .least_busy_worker ∨ r = .random_worker)) ∨
       (thr.reactor_is_worker = false ∧
         (r = .all_user ∨ r = .least_busy_user))) := by
  rcases thr with ⟨a, i, o, impl, w⟩
  cases w <;> cases r <;> simp [match_regex]

/-- C10: on a polled (`spdk_thread*`) backend identity, `send_msg` takes the
direct-delivery shortcut, returns true and never frees the message; a false
return is possible only on the reactor-index path — the reactor is absent,
not an io reactor, or its `deliver_msg` refused — and there the message is
freed. -/
theorem send_msg_spdk_shortcut_and_failure_path
    (lookup : Nat → Option IOReactor) (thr : io_thread) :
    ((∃ h, thr.thread_impl = .spdk h) →
       send_msg lookup thr = { ret := true, freed := false }) ∧
    ((send_msg lookup thr).ret = false →
       (send_msg lookup thr).freed = true ∧
       ∃ i, thr.thread_impl = .ridx i ∧
         (lookup i = none ∨
          ∃ rc, lookup i = some rc ∧
            (rc.is_io_reactor = false ∨ rc.deliver_ok thr.thread_addr = false))) := by
  constructor
  · rintro ⟨h, hh⟩
    simp [send_msg, hh]
  · intro hfail
    rcases himpl : thr.thread_impl with h | i
    · simp [send_msg, himpl] at hfail
    · refine ⟨?_, i, rfl, ?_⟩
      · simp [send_msg, himpl] at hfail ⊢
        exact hfail
      · rcases hl : lookup i with _ | rc
        · exact Or.inl rfl
        · refine Or.inr ⟨rc, rfl, ?_⟩
          cases hio : rc.is_io_reactor
          · exact Or.inl rfl
          · cases hd : rc.deliver_ok thr.thread_addr
            · exact Or.inr rfl
            · simp [send_msg, himpl, hl, hio, hd] at hfail

/-- Witness for the `send_msg` theorem at concrete inputs. -/
theorem send_msg_spdk_shortcut_and_failure_path_witness :
    send_msg (fun _ => none)
        { thread_addr := 0, thread_idx := 0, outstanding_ops := 0,
          thread_impl := .spdk 7, reactor_is_worker := true } =
      { ret := true, freed := false } :=
  (send_msg_spdk_shortcut_and_failure_path (fun _ => none)
      { thread_addr := 0, thread_idx := 0, outstanding_ops := 0,
        thread_impl := .spdk 7, reactor_is_worker := true }).1 ⟨7, rfl⟩

/-- Lemma: `send_msg` frees the message exactly when it returns false. -/
theorem send_msg_freed (lookup : Nat → Option IOReactor) (t : io_thread) :
    (send_msg lookup t).freed = !(send_msg lookup t).ret := by
  cases h : t.thread_impl <;> simp [send_msg, h]

/-- Folding the `_pick_reactors` callback over a nonempty slot list equals
scanning every slot and then running the `is_last` finalization once. -/
theorem withLast_foldl (lookup : Nat → Option IOReactor) (r : thread_regex) :
    ∀ (l : List (Option IOReactor)) (st : McastState), l ≠ [] →
      (withLast l).foldl (reactor_cb lookup r) st =
        final_send lookup (l.foldl (reactor_scan r) st)
  | [], _, h => absurd rfl h
  | [a], st, _ => by simp [withLast, reactor_cb]
  | a :: b :: rest, st, _ => by
    have ih := withLast_foldl lookup r (b :: rest) (reactor_scan r st a) (by simp)
    simpa [withLast, reactor_cb] using ih

/-- For the two least-busy regexes, the inner thread loop is the `min_upd`
fold over the matching threads of the reactor. -/
theorem thread_step_eq_min_upd (r : thread_regex)
    (hr : r = .least_busy_worker ∨ r = .least_busy_user) (rc : IOReactor)
    (ts : List io_thread) :
    ∀ st : McastState,
      ts.foldl (thread_step r rc) st =
        ((ts.filter (fun t => match_regex r t)).map (fun t => (rc, t))).foldl min_upd st := by
  induction ts with
  | nil => intro st; rfl
  | cons t ts ih =>
    intro st
    by_cases hm : match_regex r t = true
    · have h1 : thread_step r rc st t = min_upd st (rc, t) := by
        rcases hr with h | h <;> subst h <;> simp [thread_step, min_upd, hm]
      simp only [List.foldl_cons, List.filter_cons, hm, if_pos, List.map_cons]
      rw [h1]
      exact ih _
    · have h1 : thread_step r rc st t = st := by
        simp [thread_step, hm]
      simp only [List.foldl_cons, List.filter_cons, hm]
      rw [h1]
      simpa using ih st

/-- For the two least-busy regexes, scanning the slot list is the `min_upd`
fold over all matching (reactor, thread) pairs. -/
theorem reactor_scan_eq_min_upd (r : thread_regex)
    (hr : r = .least_busy_worker ∨ r = .least_busy_user)
    (l : List (Option IOReactor)) :
    ∀ st : McastState,
      l.foldl (reactor_scan r) st = (l.flatMap (reactor_pairs r)).foldl min_upd st := by
  induction l with
  | nil => intro st; rfl
  | cons a l ih =>
    intro st
    have hhead : reactor_scan r st a = (reactor_pairs r a).foldl min_upd st := by
      match a with
      | none => rfl
      | some rc =>
        by_cases hio : rc.is_io_reactor = true
        · simp only [reactor_scan, reactor_pairs, hio, if_pos]
          exact thread_step_eq_min_upd r hr rc rc.io_threads st
        · simp [reactor_scan, reactor_pairs, hio]
    rw [List.foldl_cons, List.flatMap_cons, List.foldl_append, hhead]
    exact ih _

/-- The `min_upd` fold never touches the counting or logging fields. -/
theorem min_upd_foldl_preserves :
    ∀ (ps : List (IOReactor × io_thread)) (st : McastState),
      (ps.foldl min_upd st).sent_to = st.sent_to ∧
      (ps.foldl min_upd st).cloned = st.cloned ∧
      (ps.foldl min_upd st).orig_sends = st.orig_sends ∧
      (ps.foldl min_upd st).clone_sends = st.clone_sends ∧
      (ps.foldl min_upd st).orig_frees = st.orig_frees
  | [], st => ⟨rfl, rfl, rfl, rfl, rfl⟩
  | p :: ps, st => by
    have ih := min_upd_foldl_preserves ps (min_upd st p)
    have hf : (min_upd st p).sent_to = st.sent_to ∧
        (min_upd st p).cloned = st.cloned ∧
        (min_upd st p).orig_sends = st.orig_sends ∧
        (min_upd st p).clone_sends = st.clone_sends ∧
        (min_upd st p).orig_frees = st.orig_frees := by
      unfold min_upd; split <;> simp
    simp only [List.foldl_cons]
    exact ⟨ih.1.trans hf.1, ih.2.1.trans hf.2.1, ih.2.2.1.trans hf.2.2.1,
           ih.2.2.2.1.trans hf.2.2.2.1, ih.2.2.2.2.trans hf.2.2.2.2⟩

/-- If nothing in the list beats the running bound, the fold is inert. -/
theorem min_upd_foldl_of_none :
    ∀ (ps : List (IOReactor × io_thread)) (st : McastState),
      scanMinN ps st.min_cnt = none → ps.foldl min_upd st = st
  | [], _, _ => rfl
  | p :: ps, st, h => by
    by_cases hlt : p.2.outstanding_ops < st.min_cnt
    · simp [scanMinN, hlt] at h
    · have hu : min_upd st p = st := by simp [min_upd, hlt]
      have h2 : scanMinN ps st.min_cnt = none := by
        simpa [scanMinN, hlt] using h
      simp only [List.foldl_cons, hu]
      exact min_upd_foldl_of_none ps st h2

/-- If the running minimum lands on `p`, the fold's least-busy triple is
exactly `p`'s reactor, address and count. -/
theorem min_upd_foldl_of_some :
    ∀ (ps : List (IOReactor × io_thread)) (st : McastState)
      (p : IOReactor × io_thread),
      scanMinN ps st.min_cnt = some p →
      (ps.foldl min_upd st).min_reactor = some p.1 ∧
      (ps.foldl min_upd st).min_addr = p.2.thread_addr ∧
      (ps.foldl min_upd st).min_cnt = p.2.outstanding_ops
  | [], _, _, h => by simp [scanMinN] at h
  | a :: ps, st, p, h => by
    by_cases hlt : a.2.outstanding_ops < st.min_cnt
    · have hst : (min_upd st a).min_cnt = a.2.outstanding_ops := by
        simp [min_upd, hlt]
      cases hs : scanMinN ps a.2.outstanding_ops with
      | none =>
        have hps : ps.foldl min_upd (min_upd st a) = min_upd st a :=
          min_upd_foldl_of_none ps (min_upd st a) (by rw [hst]; exact hs)
        have hpa : p = a := by
          have := h
          simp [scanMinN, hlt, hs] at this
          exact this.symm
        subst hpa
        simp only [List.foldl_cons, hps]
        simp [min_upd, hlt]
      | some w =>
        have hpw : p = w := by
          have := h
          simp [scanMinN, hlt, hs] at this
          exact this.symm
        subst hpw
        have ih := min_upd_foldl_of_some ps (min_upd st a) p (by rw [hst]; exact hs)
        simpa only [List.foldl_cons] using ih
    · have hu : min_upd st a = st := by simp [min_upd, hlt]
      have h2 : scanMinN ps st.min_cnt = some p := by
        simpa [scanMinN, hlt] using h
      have ih := min_upd_foldl_of_some ps st p h2
      simpa only [List.foldl_cons, hu] using ih

/-- Lemma: `scanMinN` returns none exactly when no element beats the bound. -/
theorem scanMinN_eq_none :
    ∀ (ps : List (IOReactor × io_thread)) (m : Int),
      scanMinN ps m = none ↔ ∀ p ∈ ps, m ≤ p.2.outstanding_ops
  | [], m => by simp [scanMinN]
  | a :: ps, m => by
    by_cases hlt : a.2.outstanding_ops < m
    · simp only [scanMinN, hlt, if_pos]
      constructor
      · intro h; cases h
      · intro h
        exact absurd (h a (by simp)) (not_le.mpr hlt)
    · simp only [scanMinN, if_neg hlt, List.mem_cons]
      rw [scanMinN_eq_none ps m]
      constructor
      · intro h q hq
        rcases hq with hq | hq
        · subst hq; exact not_lt.mp hlt
        · exact h q hq
      · intro h q hq
        exact h q (Or.inr hq)

/-- The element `scanMinN` returns splits the list into a strict-greater
part seen earlier (first-seen tie-break) and a not-smaller part after it. -/
theorem scanMinN_eq_some :
    ∀ (ps : List (IOReactor × io_thread)) (m : Int) (p : IOReactor × io_thread),
      scanMinN ps m = some p →
      ∃ pre post, ps = pre ++ p :: post ∧ p.2.outstanding_ops < m ∧
        (∀ q ∈ pre, p.2.outstanding_ops < q.2.outstanding_ops) ∧
        (∀ q ∈ post, p.2.outstanding_ops ≤ q.2.outstanding_ops)
  | [], m, p => by simp [scanMinN]
  | a :: ps, m, p => by
    intro h
    by_cases hlt : a.2.outstanding_ops < m
    · cases hs : scanMinN ps a.2.outstanding_ops with
      | none =>
        have hpa : a = p := by
          have := h; simp [scanMinN, hlt, hs] at this; exact this
        subst hpa
        refine ⟨[], ps, rfl, hlt, by simp, ?_⟩
        exact (scanMinN_eq_none ps a.2.outstanding_ops).mp hs
      | some w =>
        have hpw : w = p := by
          have := h; simp [scanMinN, hlt, hs] at this; exact this
        subst hpw
        obtain ⟨pre, post, hsplit, hm, hpre, hpost⟩ :=
          scanMinN_eq_some ps a.2.outstanding_ops w hs
        refine ⟨a :: pre, post, by rw [hsplit]; rfl, lt_trans hm hlt, ?_, hpost⟩
        intro q hq
        rcases List.mem_cons.mp hq with hq | hq
        · subst hq; exact hm
        · exact hpre q hq
    · have h2 : scanMinN ps m = some p := by
        simpa [scanMinN, hlt] using h
      obtain ⟨pre, post, hsplit, hm, hpre, hpost⟩ := scanMinN_eq_some ps m p h2
      refine ⟨a :: pre, post, by rw [hsplit]; rfl, hm, ?_, hpost⟩
      intro q hq
      rcases List.mem_cons.mp hq with hq | hq
      · subst hq; exact lt_of_lt_of_le hm (not_lt.mp hlt)
      · exact hpre q hq

/-- Every scanned pair comes from a non-null io reactor of the pick list,
its thread belongs to that reactor and matches the regex. -/
theorem mem_matching_threads {env : MulticastEnv} {r : thread_regex}
    {p : IOReactor × io_thread} (hp : p ∈ matching_threads env r) :
    some p.1 ∈ pick_list env r ∧ p.1.is_io_reactor = true ∧
    p.2 ∈ p.1.io_threads ∧ match_regex r p.2 = true := by
  obtain ⟨orea, hor, hpin⟩ := List.mem_flatMap.mp hp
  match orea with
  | none => simp [reactor_pairs] at hpin
  | some rc =>
    by_cases hio : rc.is_io_reactor = true
    · simp only [reactor_pairs, hio, if_pos] at hpin
      obtain ⟨t, ht, hteq⟩ := List.mem_map.mp hpin
      obtain ⟨htmem, htmatch⟩ := List.mem_filter.mp ht
      refine ⟨?_, ?_, ?_, ?_⟩
      · rw [← hteq] at *; exact hor
      · rw [← hteq]; exact hio
      · rw [← hteq]; exact htmem
      · rw [← hteq]; exact htmatch
    · simp [reactor_pairs, hio] at hpin

/-- With distinct thread addresses inside a reactor, `addr_to_thread`
resolves a member thread's address back to that thread. -/
theorem addr_to_thread_self (rc : IOReactor) (t : io_thread)
    (hnd : (rc.io_threads.map io_thread.thread_addr).Nodup)
    (ht : t ∈ rc.io_threads) :
    addr_to_thread rc t.thread_addr = some t := by
  unfold addr_to_thread
  have hsome : (rc.io_threads.find? (fun u => u.thread_addr == t.thread_addr)).isSome := by
    rw [List.find?_isSome]
    exact ⟨t, ht, by simp⟩
  obtain ⟨u, hu⟩ := Option.isSome_iff_exists.mp hsome
  have hmem : u ∈ rc.io_threads := List.mem_of_find?_eq_some hu
  have haddr : u.thread_addr = t.thread_addr := by
    have := List.find?_some hu
    simpa using this
  have : u = t := List.inj_on_of_nodup_map hnd hmem ht haddr
  rw [hu, this]

/-- Effect of the `is_last` finalization when the targeted `send_msg`
succeeds: `sent_to` grows by one, the original is logged as delivered to
the resolved thread, and nothing is freed. -/
theorem final_send_success (lookup : Nat → Option IOReactor) (st : McastState)
    (rc : IOReactor) (t : io_thread)
    (hmr : st.min_reactor = some rc) (hat : addr_to_thread rc st.min_addr = some t)
    (hok : (send_msg lookup t).ret = true) :
    (final_send lookup st).sent_to = st.sent_to + 1 ∧
    (final_send lookup st).orig_sends = st.orig_sends ++ [t] ∧
    (final_send lookup st).clone_sends = st.clone_sends ∧
    (final_send lookup st).cloned = st.cloned ∧
    (final_send lookup st).orig_frees = st.orig_frees := by
  have hfr : (send_msg lookup t).freed = false := by
    rw [send_msg_freed, hok]; rfl
  unfold final_send
  rw [hmr]
  simp only [hat, hok, hfr]
  simp

/-- C2: for `least_busy_worker` and `least_busy_user`, `multicast_msg` scans
all matching io_threads tracking the least `outstanding_ops` and, on the
last-thread callback, delivers the original message exactly once to the
first-seen thread attaining that minimum (so its count is ≤ every other
matching thread's, and strictly below every earlier-seen one); with no
matching thread nothing is delivered. Hypotheses: the metrics counters sit
below the `INTMAX_MAX` sentinel, thread addresses are distinct within each
reactor, and the recipient queues accept deliveries. -/
theorem multicast_least_busy_selects_minimum (env : MulticastEnv) (k : Nat)
    (r : thread_regex) (hr : r = .least_busy_worker ∨ r = .least_busy_user)
    (hops : ∀ p ∈ matching_threads env r, p.2.outstanding_ops < INTMAX_MAX)
    (hnodup : ∀ orea ∈ pick_list env r, ∀ rc : IOReactor, orea = some rc →
        (rc.io_threads.map io_thread.thread_addr).Nodup)
    (hsend : ∀ t : io_thread, (send_msg env.lookup t).ret = true) :
    (matching_threads env r = [] →
       (multicast_msg env r k).sent_to = 0 ∧
       (multicast_msg env r k).orig_sends = [] ∧
       (multicast_msg env r k).clone_sends = []) ∧
    (matching_threads env r ≠ [] →
       ∃ pre p post,
         matching_threads env r = pre ++ p :: post ∧
         (multicast_msg env r k).sent_to = 1 ∧
         (multicast_msg env r k).orig_sends = [p.2] ∧
         (multicast_msg env r k).clone_sends = [] ∧
         (∀ q ∈ pre, p.2.outstanding_ops < q.2.outstanding_ops) ∧
         (∀ q ∈ post, p.2.outstanding_ops ≤ q.2.outstanding_ops)) := by
  have hrand : ¬(r = thread_regex.random_worker) := by
    rcases hr with h | h <;> subst h <;> intro hc <;> cases hc
  have hmc : multicast_msg env r k =
      (let st := (withLast (pick_list env r)).foldl (reactor_cb env.lookup r) init_mcast
       if st.cloned || st.sent_to == 0 then { st with orig_frees := st.orig_frees + 1 }
       else st) := by
    unfold multicast_msg
    rw [if_neg hrand]
  constructor
  · -- no matching thread: the minimum tracker stays empty, nothing delivered
    intro hM
    by_cases hpe : pick_list env r = []
    · rw [hmc]
      simp [hpe, withLast, init_mcast]
    · have hfold : (pick_list env r).foldl (reactor_scan r) init_mcast =
          (matching_threads env r).foldl min_upd init_mcast :=
        reactor_scan_eq_min_upd r hr (pick_list env r) init_mcast
      have hempty : (matching_threads env r).foldl min_upd init_mcast = init_mcast := by
        rw [hM]; rfl
      have hwl := withLast_foldl env.lookup r (pick_list env r) init_mcast hpe
      rw [hmc]
      simp only [hwl, hfold, hempty]
      simp [final_send, init_mcast]
  · -- at least one matching thread: the first-seen minimum gets the original
    intro hM
    have hpe : pick_list env r ≠ [] := by
      intro hc
      exact hM (by rw [matching_threads, hc]; rfl)
    -- the scan's minimum exists because the head sits below the sentinel
    obtain ⟨p0, M, hM0⟩ : ∃ p0 M, matching_threads env r = p0 :: M := by
      cases hMs : matching_threads env r with
      | nil => exact absurd hMs hM
      | cons p0 M => exact ⟨p0, M, rfl⟩
    have hne : scanMinN (matching_threads env r) INTMAX_MAX ≠ none := by
      intro hc
      have := (scanMinN_eq_none _ _).mp hc p0 (by rw [hM0]; simp)
      have hlt := hops p0 (by rw [hM0]; simp)
      exact absurd hlt (not_lt.mpr this)
    obtain ⟨p, hp⟩ := Option.ne_none_iff_exists'.mp hne
    obtain ⟨pre, post, hsplit, _, hpre, hpost⟩ :=
      scanMinN_eq_some (matching_threads env r) INTMAX_MAX p hp
    have hpmem : p ∈ matching_threads env r := by
      rw [hsplit]; exact List.mem_append_right _ (by simp)
    obtain ⟨hpick, _, htmem, _⟩ := mem_matching_threads hpmem
    -- the state after the full scan
    have hfold : (pick_list env r).foldl (reactor_scan r) init_mcast =
        (matching_threads env r).foldl min_upd init_mcast :=
      reactor_scan_eq_min_upd r hr (pick_list env r) init_mcast
    set st1 := (matching_threads env r).foldl min_upd init_mcast with hst1
    have hmin := min_upd_foldl_of_some (matching_threads env r) init_mcast p hp
    have hkeep := min_upd_foldl_preserves (matching_threads env r) init_mcast
    -- the finalization resolves the recorded address back to p's thread
    have hnd := hnodup (some p.1) hpick p.1 rfl
    have hat : addr_to_thread p.1 st1.min_addr = some p.2 := by
      rw [hmin.2.1]
      exact addr_to_thread_self p.1 p.2 hnd htmem
    have hfin := final_send_success env.lookup st1 p.1 p.2 hmin.1 hat (hsend p.2)
    have hwl := withLast_foldl env.lookup r (pick_list env r) init_mcast hpe
    have hsent : (final_send env.lookup st1).sent_to = 1 := by
      rw [hfin.1, hkeep.1]; rfl
    have hcl : (final_send env.lookup st1).cloned = false := by
      rw [hfin.2.2.2.1, hkeep.2.1]; rfl
    refine ⟨pre, p, post, hsplit, ?_, ?_, ?_, hpre, hpost⟩
    · rw [hmc]
      simp only [hwl, hfold, ← hst1, hcl, hsent]
      simp only [Bool.false_or]
      rw [if_neg (by simp)]
      exact hsent
    · rw [hmc]
      simp only [hwl, hfold, ← hst1, hcl, hsent]
      simp only [Bool.false_or]
      rw [if_neg (by simp)]
      rw [hfin.2.1, hkeep.2.2.1]
      rfl
    · rw [hmc]
      simp only [hwl, hfold, ← hst1, hcl, hsent]
      simp only [Bool.false_or]
      rw [if_neg (by simp)]
      rw [hfin.2.2.1, hkeep.2.2.2.1]
      rfl

/-- Witness for the least-busy multicast theorem: in `okEnv` the scan over
`[(okR, okT1), (okR, okT2)]` picks `okT2` (2 < 5 outstanding ops) and the
original is delivered exactly once. -/
theorem multicast_least_busy_selects_minimum_witness :
    ∃ pre p post,
      matching_threads okEnv .least_busy_worker = pre ++ p :: post ∧
      (multicast_msg okEnv .least_busy_worker 0).sent_to = 1 ∧
      (multicast_msg okEnv .least_busy_worker 0).orig_sends = [p.2] ∧
      (multicast_msg okEnv .least_busy_worker 0).clone_sends = [] ∧
      (∀ q ∈ pre, p.2.outstanding_ops < q.2.outstanding_ops) ∧
      (∀ q ∈ post, p.2.outstanding_ops ≤ q.2.outstanding_ops) :=
  (multicast_least_busy_selects_minimum okEnv 0 .least_busy_worker (Or.inl rfl)
    (by
      intro p hp
      rw [show matching_threads okEnv thread_regex.least_busy_worker =
            [(okR, okT1), (okR, okT2)] from rfl] at hp
      rcases List.mem_cons.mp hp with h | h
      · subst h; decide
      · rcases List.mem_cons.mp h with h2 | h2
        · subst h2; decide
        · cases h2)
    (by
      intro orea ho rc he
      have h1 : orea = some okR := by
        rw [show pick_list okEnv thread_regex.least_busy_worker = [some okR] from rfl] at ho
        simpa using ho
      rw [h1] at he
      injection he with h3
      subst h3
      decide)
    (by
      intro t
      cases h : t.thread_impl with
      | spdk hh => simp [send_msg, h]
      | ridx i => simp [send_msg, h, okEnv, okR])).2
    (by
      rw [show matching_threads okEnv thread_regex.least_busy_worker =
            [(okR, okT1), (okR, okT2)] from rfl]
      simp)

/-- C1 evaluated at the failing input `cexEnv1`: the least-busy scan selects
`cexT1`, the final `send_msg` fails (its reactor's queue refuses), `send_msg`
frees the original, and then the `cloned || !sent_to` cleanup frees it a
second time — two frees of one message, contradicting the claim (and spec
law 4, "no message is double-freed"). -/
theorem multicast_least_busy_send_failure_double_free :
    (multicast_msg cexEnv1 .least_busy_worker 0).sent_to = 0 ∧
    (multicast_msg cexEnv1 .least_busy_worker 0).orig_frees = 2 := by
  decide

/-- C6 counterexample: a worker slot exists (`cexEnv2` has one), yet
`multicast_msg(random_worker, msg)` returns 0, not 1, because the chosen
reactor's `deliver_msg` refuses the message; the original is freed. -/
theorem multicast_random_worker_counterexample :
    cexEnv2.worker_reactors.length = 1 ∧
    (multicast_msg cexEnv2 .random_worker 0).sent_to = 0 ∧
    (multicast_msg cexEnv2 .random_worker 0).orig_frees = 1 := by
  decide

/-- C6 amended: when the drawn worker slot `k` holds a registered reactor,
the original message (never a clone) is handed to that reactor's
`select_thread()` target; if `deliver_msg` accepts it the call returns 1 and
nothing is freed, and if it refuses the call returns 0 and the original is
freed once. -/
theorem multicast_random_worker_delivery (env : MulticastEnv) (k : Nat)
    (rc : IOReactor) (hk : env.worker_reactors[k]? = some (some rc)) :
    (rc.deliver_ok rc.select_thread.thread_idx = true →
       (multicast_msg env .random_worker k).sent_to = 1 ∧
       (multicast_msg env .random_worker k).cloned = false ∧
       (multicast_msg env .random_worker k).orig_sends = [rc.select_thread] ∧
       (multicast_msg env .random_worker k).clone_sends = [] ∧
       (multicast_msg env .random_worker k).orig_frees = 0) ∧
    (rc.deliver_ok rc.select_thread.thread_idx = false →
       (multicast_msg env .random_worker k).sent_to = 0 ∧
       (multicast_msg env .random_worker k).orig_sends = [] ∧
       (multicast_msg env .random_worker k).orig_frees = 1) := by
  constructor <;> intro hd <;>
    simp [multicast_msg, hk, hd, init_mcast]

/-- Witness for the amended random-worker theorem on the healthy `okEnv`. -/
theorem multicast_random_worker_delivery_witness :
    (multicast_msg okEnv .random_worker 0).sent_to = 1 ∧
    (multicast_msg okEnv .random_worker 0).cloned = false ∧
    (multicast_msg okEnv .random_worker 0).orig_sends = [okR.select_thread] ∧
    (multicast_msg okEnv .random_worker 0).clone_sends = [] ∧
    (multicast_msg okEnv .random_worker 0).orig_frees = 0 :=
  (multicast_random_worker_delivery okEnv 0 okR rfl).1 rfl

/-- C4: `start` called while the manager is already `running` logs a warning
and returns without changing anything: the resulting state is the input
state — no counters published, no interfaces added, no reactors spawned,
state still `running`. -/
theorem start_noop_when_running (s : ManagerState) (num_threads : Nat)
    (is_spdk : Bool) (custom_ifaces : Option (Nat × Nat))
    (h : s.state = .running) :
    start s num_threads is_spdk custom_ifaces = s := by
  unfold start
  rw [if_pos h]

/-- Witness: starting an already-running manager changes nothing. -/
theorem start_noop_when_running_witness :
    start runningState 8 true none = runningState :=
  start_noop_when_running runningState 8 true none rfl

/-- C5 counterexample: calling `stop()` on a manager that is not `running`
(here `uninitialized`) is not a no-op — the state changes (to `stopped`) and
a `RELINQUISH_IO_THREAD` multicast is issued, because `stop` has no state
guard. -/
theorem stop_not_noop_counterexample :
    uninitState.state ≠ iomgr_state.running ∧
    (stop uninitState).state ≠ uninitState.state ∧
    (stop uninitState).relinquish_multicasts ≠ uninitState.relinquish_multicasts ∧
    (stop uninitState).state = iomgr_state.stopped := by
  decide

/-- C5 amended: `stop()` performs the full shutdown sequence regardless of
the starting state — it ends in `stopped`, destroys both global timers,
multicasts `RELINQUISH_IO_THREAD` once, and clears the worker reactor vector
and both interface lists; there is no non-`running` no-op guard (the
relinquish multicast alone already distinguishes `stop s` from `s` in every
state). -/
theorem stop_unconditional_shutdown (s : ManagerState) :
    (stop s).state = .stopped ∧
    (stop s).global_user_timer = false ∧
    (stop s).global_worker_timer = false ∧
    (stop s).relinquish_multicasts = s.relinquish_multicasts + 1 ∧
    (stop s).worker_reactor_count = 0 ∧
    (stop s).iface_count = 0 ∧
    (stop s).drive_iface_count = 0 :=
  ⟨rfl, rfl, rfl, rfl, rfl, rfl, rfl⟩

/-- C7: `schedule_global_timer` with a regex other than `all_worker` or
`all_user` schedules nothing and returns the null handle; `all_worker`
schedules on the global worker-scope timer and `all_user` on the global
user-scope timer, forwarding the arguments. -/
theorem schedule_global_timer_routing (nanos : Nat) (recurring : Bool)
    (r : thread_regex) :
    (r ≠ .all_worker → r ≠ .all_user →
       schedule_global_timer nanos recurring r = null_timer_handle) ∧
    schedule_global_timer nanos recurring .all_worker =
      some (.worker_timer, nanos, recurring) ∧
    schedule_global_timer nanos recurring .all_user =
      some (.user_timer, nanos, recurring) := by
  refine ⟨?_, rfl, ?_⟩
  · intro h1 h2
    simp [schedule_global_timer, h1, h2]
  · simp [schedule_global_timer]

/-- Witness: an invalid regex yields the null timer handle. -/
theorem schedule_global_timer_routing_witness :
    schedule_global_timer 100 true .least_busy_io = null_timer_handle :=
  (schedule_global_timer_routing 100 true .least_busy_io).1
    (by decide) (by decide)

/-- A sufficiently fueled probe starting below a free index lands on a free
index. -/
theorem leastFreeAux_not_mem :
    ∀ (fuel n : Nat) (taken : List Nat),
      (∃ k, k < fuel ∧ (n + k) ∉ taken) → leastFreeAux fuel n taken ∉ taken
  | 0, _, _, h => absurd h.choose_spec.1 (Nat.not_lt_zero _)
  | fuel + 1, n, taken, ⟨k, hk, hfree⟩ => by
    by_cases hn : n ∈ taken
    · have hk0 : k ≠ 0 := by
        intro h; subst h; simp only [Nat.add_zero] at hfree; exact hfree hn
      have hnext : ∃ k2, k2 < fuel ∧ ((n + 1) + k2) ∉ taken := by
        refine ⟨k - 1, by omega, ?_⟩
        have heq : (n + 1) + (k - 1) = n + k := by omega
        rw [heq]; exact hfree
      simp only [leastFreeAux, hn, if_pos]
      exact leastFreeAux_not_mem fuel (n + 1) taken hnext
    · simp only [leastFreeAux, if_neg hn]
      exact hn

/-- Pigeonhole: some index up to `taken.length` is free. -/
theorem exists_free_le_length (taken : List Nat) :
    ∃ n, n ≤ taken.length ∧ n ∉ taken := by
  by_contra hc
  push_neg at hc
  have hsub : Finset.range (taken.length + 1) ⊆ taken.toFinset := by
    intro m hm
    rw [List.mem_toFinset]
    exact hc m (Nat.lt_succ_iff.mp (Finset.mem_range.mp hm))
  have hcard := Finset.card_le_card hsub
  rw [Finset.card_range] at hcard
  have hlen := List.toFinset_card_le taken
  omega

/-- The reserver never hands out an index that is already taken. -/
theorem reserve_not_mem (taken : List Nat) : reserve taken ∉ taken := by
  obtain ⟨n, hn, hfree⟩ := exists_free_le_length taken
  exact leastFreeAux_not_mem (taken.length + 1) 0 taken
    ⟨n, by omega, by simpa using hfree⟩

/-- C8: `make_io_thread` raises the system error when the reserved index
reaches `max_io_threads`, and otherwise returns an io_thread whose
`thread_idx` is freshly reserved (not previously taken) and strictly below
`max_io_threads`. -/
theorem make_io_thread_capacity (max_io_threads : Nat) (taken : List Nat) :
    (reserve taken ≥ max_io_threads →
       make_io_thread max_io_threads taken =
         Except.error "Running IO Threads exceeds limit") ∧
    (reserve taken < max_io_threads →
       make_io_thread max_io_threads taken = Except.ok (reserve taken) ∧
       reserve taken ∉ taken ∧ reserve taken < max_io_threads) := by
  constructor
  · intro h
    simp [make_io_thread, h]
  · intro h
    refine ⟨?_, reserve_not_mem taken, h⟩
    simp [make_io_thread, Nat.not_le.mpr h]

/-- Witness: with indices 0 and 1 taken and a limit of 4, index 2 is
reserved. -/
theorem make_io_thread_capacity_witness :
    make_io_thread 4 [0, 1] = Except.ok (reserve [0, 1]) ∧
    reserve [0, 1] ∉ [0, 1] ∧ reserve [0, 1] < 4 :=
  (make_io_thread_capacity 4 [0, 1]).2 (by decide)

/-- The rounded size is the least multiple of the alignment ≥ the size. -/
theorem round_up_bounds (size align : Nat) (h : 0 < align) :
    align ∣ round_up size align ∧ size ≤ round_up size align ∧
    round_up size align < size + align := by
  unfold round_up
  refine ⟨dvd_mul_left align _, ?_, ?_⟩ <;>
  · have h1 := Nat.div_add_mod (size + align - 1) align
    have h2 := Nat.mod_lt (size + align - 1) h
    rw [Nat.mul_comm align] at h1
    omega

/-- C9: `iobuf_alloc(align, size)` rounds the size up to the next multiple
of the alignment and allocates from the DMA-capable (spdk) allocator iff
`is_spdk` is set, libc `aligned_alloc` otherwise; `iobuf_free` and
`iobuf_realloc` route to the same allocator under the same flag. -/
theorem iobuf_allocator_duality (is_spdk : Bool) (align size new_size : Nat)
    (h : 0 < align) :
    (iobuf_alloc is_spdk align size).1 =
      (if is_spdk then alloc_backend.spdk_dma else alloc_backend.libc) ∧
    align ∣ (iobuf_alloc is_spdk align size).2.2 ∧
    size ≤ (iobuf_alloc is_spdk align size).2.2 ∧
    (iobuf_alloc is_spdk align size).2.2 < size + align ∧
    iobuf_free is_spdk = (iobuf_alloc is_spdk align size).1 ∧
    (iobuf_realloc is_spdk align new_size).1 = (iobuf_alloc is_spdk align size).1 := by
  obtain ⟨hd, hle, hlt⟩ := round_up_bounds size align h
  cases is_spdk <;> exact ⟨rfl, hd, hle, hlt, rfl, rfl⟩

/-- Witness: spdk mode, align 8, size 13 → size rounded within one align. -/
theorem iobuf_allocator_duality_witness :
    (iobuf_alloc true 8 13).1 =
      (if true then alloc_backend.spdk_dma else alloc_backend.libc) ∧
    8 ∣ (iobuf_alloc true 8 13).2.2 ∧
    13 ≤ (iobuf_alloc true 8 13).2.2 ∧
    (iobuf_alloc true 8 13).2.2 < 13 + 8 ∧
    iobuf_free true = (iobuf_alloc true 8 13).1 ∧
    (iobuf_realloc true 8 40).1 = (iobuf_alloc true 8 13).1 :=
  iobuf_allocator_duality true 8 13 40 (by decide)

end Iomgr
